import Mathlib

/-!
Verification of the simulation-and-sampling orchestration core of BoolODE
(src/BoolODE/run_experiment.py) against its natural-language specification.

The embedding below translates the Python source shallowly:
  * numpy matrices become `Mat := List (List ℚ)` (a list of rows); numpy
    arrays are rectangular, so the matrix operations are used on inputs whose
    rows all have one length, and theorems carry that as a hypothesis where
    it matters;
  * Python floats become ℚ (the claims under study are about comparison and
    bookkeeping structure, not rounding);
  * the unbounded `while retry` loop of `simulateAndSample` becomes a
    fuel-indexed recursion returning `Option`: `none` means the loop has not
    accepted within the given number of attempts, for any fuel - which is how
    non-termination is stated;
  * Python exceptions (NameError / KeyError / IndexError) become an
    `Except PyErr` result;
  * Python dicts become association lists with insert-overwrites semantics,
    and the numpy state vector `ss` becomes a total function `Nat → ℚ`
    updated pointwise (all indices written by the source are in bounds under
    the membership hypotheses the theorems carry).
File-writing side effects (the per-cell CSVs) are not modelled; the claims
under study are about the returned values and control flow.
-/

/-- A numpy 2-D array as a list of rows. -/
abbrev Mat := List (List ℚ)

/-- Test `leadMatch p s`: the character list `p` is an initial run of `s`. -/
def leadMatch : List Char → List Char → Bool
  | [], _ => true
  | _ :: _, [] => false
  | a :: ps, b :: ss => a = b && leadMatch ps ss

/-- Test `hasRun p s`: `p` occurs as a contiguous run inside `s`. -/
def hasRun (p : List Char) : List Char → Bool
  | [] => leadMatch p []
  | c :: rest => leadMatch p (c :: rest) || hasRun p rest

/-- Python's substring test `pat in s` (as used in `'x_' in mg.varmapper[i]`). -/
def strContains (s pat : String) : Bool := hasRun pat.data s.data

/-- Remainder of `s` after removing one leading occurrence of `p`; `none`
when `p` is not an initial run of `s`. -/
def dropMatched : List Char → List Char → Option (List Char)
  | [], s => some s
  | _ :: _, [] => none
  | a :: ps, b :: ss => if a = b then dropMatched ps ss else none

/-- Fuel-indexed removal of every occurrence of `p` (Python
`s.replace(p, '')`); called with fuel = length of `s`, which suffices since
every step consumes at least one character. -/
def replFuel (p : List Char) : Nat → List Char → List Char
  | 0, s => s
  | _ + 1, [] => []
  | fuel + 1, c :: rest =>
    match dropMatched p (c :: rest) with
    | some rem => if p.isEmpty then c :: replFuel p fuel rest else replFuel p fuel rem
    | none => c :: replFuel p fuel rest

/-- Python `s.replace(pat, '')` (as used in `k.replace('p_','')`). -/
def pyReplace (s pat : String) : String := ⟨replFuel pat.data s.data.length s.data⟩

/-- Both `rnaIndex` (run_experiment.py line 65) and `gid` (line 429): the indices
of the variable map whose name contains `'x_'`. -/
def gidOf (varmapper : List String) : List Nat :=
  (varmapper.enum.filter (fun ik => strContains ik.2 "x_")).map (fun ik => ik.1)

/-- Indices `alls` (line 430): every index of the variable map. -/
def allsOf (varmapper : List String) : List Nat := List.range varmapper.length

/-- Time points `tps = [i for i in range(1, len(tspan))]` (line 427): the
indices excluding t=0. -/
def tpsOf (tlen : Nat) : List Nat := List.range' 1 (tlen - 1)

/-- Fancy row indexing `M[is, :]`. -/
def rowsOf (M : Mat) (is : List Nat) : Mat := is.map (fun i => M.getD i [])

/-- Column selection `M[:, js]`. -/
def colsOf (M : Mat) (js : List Nat) : Mat :=
  M.map (fun r => js.map (fun j => r.getD j 0))

/-- numpy transpose `M.T` of a rectangular matrix. -/
def matT (M : Mat) : Mat :=
  (List.range (M.headD []).length).map (fun j => M.map (fun r => r.getD j 0))

/-- Maximum of a nonempty list of values (pandas `Series.max()`); the `[]`
case never arises in the theorems below, which assume at least one gene row. -/
def listMax : List ℚ → ℚ
  | [] => 0
  | x :: xs => xs.foldl max x

/-- Extraction `subset = P[gid,:][:,tps]` (line 448): gene rows at post-t0 time points. -/
def geneTimeSubset (P : Mat) (gid tps : List Nat) : Mat := colsOf (rowsOf P gid) tps

/-- The column scan of lines 460-464: walk the columns in order and stop at
the first whose maximum is strictly below the threshold. -/
def rejectScan (cols : List (List ℚ)) (xMax : ℚ) : Bool :=
  match cols with
  | [] => false
  | c :: rest => if listMax c < 0.1 * xMax then true else rejectScan rest xMax

/-- The rejection heuristic applied to the gene-by-time subset: the `df`
of line 449 has one column per element of `tps`, read positionally. -/
def rejectTrajectory (subset : Mat) (tpsLen : Nat) (xMax : ℚ) : Bool :=
  rejectScan ((List.range tpsLen).map (fun j => subset.map (fun r => r.getD j 0))) xMax

/-- The `while retry` loop of `simulateAndSample` (lines 432-488), fuel
indexed, also recording the seed passed to the integrator on every attempt.
`integrate` is the external `simulator.simulateModel` boundary, returning the
time-by-species matrix the ODE integrator produces for a given seed (the
initial-condition resolution of lines 436-441 is folded into it: it is
opaque to every claim below).  Each attempt: `seed += 1000`, integrate,
transpose to species-by-time, build the gene/time subset, scan; on rejection
loop, otherwise return `P[alls,:][:,tps[-1]]` and `P[alls,:][:,:]`. -/
def simLoopTr (integrate : Nat → Mat) (gid alls tps : List Nat) (lastTp : Nat)
    (xMax : ℚ) : Nat → Nat → Option (List ℚ × Mat) × List Nat
  | 0, _ => (none, [])
  | fuel + 1, seed =>
    let seed' := seed + 1000
    let P := matT (integrate seed')
    if rejectTrajectory (geneTimeSubset P gid tps) tps.length xMax then
      let res := simLoopTr integrate gid alls tps lastTp xMax fuel seed'
      (res.1, seed' :: res.2)
    else
      (some ((rowsOf P alls).map (fun r => r.getD lastTp 0), rowsOf P alls), [seed'])

/-- Worker `simulateAndSample` (lines 378-488): the values computed before the loop
(`tps`, `gid`, `alls`, and `tps[-1]`, which the Python reads only on the
accepted attempt) and the loop itself; returns the accepted
`(final state over all species, trajectory over all species)` pair, or
`none` when no attempt within `fuel` is accepted. -/
def simulateAndSample (integrate : Nat → Mat) (varmapper : List String)
    (tlen : Nat) (xMax : ℚ) (fuel seed : Nat) : Option (List ℚ × Mat) :=
  (simLoopTr integrate (gidOf varmapper) (allsOf varmapper) (tpsOf tlen)
    ((tpsOf tlen).getLastD 0) xMax fuel seed).1

/-- The seeds handed to the integrator, in attempt order. -/
def attemptSeeds (integrate : Nat → Mat) (varmapper : List String)
    (tlen : Nat) (xMax : ℚ) (fuel seed : Nat) : List Nat :=
  (simLoopTr integrate (gidOf varmapper) (allsOf varmapper) (tpsOf tlen)
    ((tpsOf tlen).getLastD 0) xMax fuel seed).2

/-- The arithmetic progression `seed + 1000, seed + 2000, ...` of length `n`. -/
def seedList (seed n : Nat) : List Nat :=
  (List.range n).map (fun k => seed + 1000 * (k + 1))

/-! ## Experiment: initial-condition resolution (lines 60-109) -/

/-- Python exceptions the modelled code paths can raise. -/
inductive PyErr where
  | nameErr (n : String)
  | keyErr
  | idxErr
  deriving DecidableEq

/-- The `icsDF` argument of `Experiment`: either the DataFrame loaded from
the initial-condition file (each row already parsed by `ast.literal_eval`
into its `Genes` and `Values` lists; the no-file sentinel is `df []`) or the
list of per-cell state vectors a perturbation re-run passes in. -/
inductive ICS where
  | df (rows : List (List String × List ℚ))
  | vecs (l : List (List ℚ))

/-- Pointwise update of the state vector `ss[i] = v`. -/
def upd (ss : Nat → ℚ) (i : Nat) (v : ℚ) : Nat → ℚ :=
  fun j => if j = i then v else ss j

/-- Lookup `revvarmapper[name]` (line 66): the index of a species name; Python
builds the reverse dict, which on a duplicate-free variable map is the index
of the (unique) occurrence. -/
def revIdx (varmapper : List String) (name : String) : Nat := varmapper.indexOf name

/-- The Python dict `{g: v for g, v in zip(genes, values)}`: lookup where a
later binding of the same key wins. -/
def pyGet (m : List (String × ℚ)) (k : String) : Option ℚ :=
  (m.reverse.find? (fun kv => kv.1 = k)).map (fun kv => kv.2)

/-- The template steady-state vector of lines 70-80: zeros, then `1.0` on
every `x_` slot and `20.0` on every `p_` slot whose stripped name is in the
protein list. -/
def ssTemplate (varmapper proteinlist : List String) : Nat → ℚ :=
  varmapper.enum.foldl
    (fun ss ik =>
      if strContains ik.2 "x_" then upd ss ik.1 1
      else if strContains ik.2 "p_" then
        if proteinlist.contains (pyReplace ik.2 "p_") then upd ss ik.1 20 else ss
      else ss)
    (fun _ => 0)

/-- The written value of one override assignment: `icsmap[k]` when
`k in icsmap.keys()` and the default otherwise (the if/else of lines
89-92 and 94-97 collapsed into the one value it writes). -/
def pyGetD (m : List (String × ℚ)) (k : String) (q : ℚ) : ℚ := (pyGet m k).getD q

/-- The override branch of lines 87-97: for every entry of the variable map,
rewrite every protein slot and then every gene slot, to the override value
when the name is in `icsmap` and to `0.01` otherwise. -/
def applyICSRow (varmapper proteinlist genelist : List String)
    (icsmap : List (String × ℚ)) (ss0 : Nat → ℚ) : Nat → ℚ :=
  varmapper.enum.foldl
    (fun ss _ =>
      let ss1 := proteinlist.foldl
        (fun s p => upd s (revIdx varmapper ("p_" ++ p)) (pyGetD icsmap p 0.01)) ss
      genelist.foldl
        (fun s g => upd s (revIdx varmapper ("x_" ++ g)) (pyGetD icsmap g 0.01)) ss1)
    ss0

/-- The `multi_ss` flag: lines 81-100 take the single-steady-state branch
exactly when `icsDF` is a DataFrame and is not empty. -/
def multiSSFlag : ICS → Bool
  | .df rows => rows.isEmpty
  | .vecs _ => true

/-- The resolved initial condition: one shared template (single mode) or the
first per-cell vector `icsDF[0]` (multi mode, line 101). -/
inductive SSInit where
  | single (ss : Nat → ℚ)
  | multi (ss0 : List ℚ)

/-- Lines 70-101 of `Experiment`: build the template, then either apply the
row-0 override (non-empty DataFrame), or fall into the multi-configuration
branch where `ss = icsDF[0]` - a KeyError on the empty DataFrame sentinel
(column label 0 does not exist) and an IndexError on an empty list. -/
def resolveSS (varmapper proteinlist genelist : List String) (ics : ICS) :
    Except PyErr SSInit :=
  let ss := ssTemplate varmapper proteinlist
  match ics with
  | .df (row0 :: _) =>
    let icsmap := row0.1.zip row0.2
    .ok (.single (applyICSRow varmapper proteinlist genelist icsmap ss))
  | .df [] => .error .keyErr
  | .vecs l =>
    match l.get? 0 with
    | some v => .ok (.multi v)
    | none => .error .idxErr

/-- Lines 104-109 of `Experiment`: the result-frame index.  The empty-protein
branch uses the RNA indices; the other branch reads the name `proteinlist`,
which is not bound in `Experiment` (the model's list is `mg.proteinlist`), so
Python raises `NameError: name 'proteinlist' is not defined`. -/
def resultFrameIndexNames (varmapper proteinlist : List String) :
    Except PyErr (List String) :=
  if proteinlist.length = 0 then
    .ok ((gidOf varmapper).map (fun i => varmapper.getD i ""))
  else
    .error (.nameErr "proteinlist")

/-- The part of `Experiment` that runs before any simulation is dispatched
(the fan-out of lines 166-186 comes after both stages, in source order):
initial-condition resolution (lines 70-101), then the result-frame
construction (lines 104-109). -/
def experimentPreDispatch (varmapper proteinlist genelist : List String)
    (ics : ICS) : Except PyErr (SSInit × List String) := do
  let ss ← resolveSS varmapper proteinlist genelist ics
  let names ← resultFrameIndexNames varmapper proteinlist
  pure (ss, names)

/-! ## Experiment: collection and mean-trajectory accumulation (lines 164-197) -/

/-- Collection `states` (lines 164-186): one worker result per cell id, collected in
submission order - `states[i]` is cell `i`'s `(final state, trajectory)`. -/
def experimentStates (worker : Nat → List ℚ × Mat) (numCells : Nat) :
    List (List ℚ × Mat) :=
  (List.range numCells).map worker

/-- Slice `w[::2, :]`: every other row of a matrix, starting at row 0. -/
def everyOther : List α → List α
  | [] => []
  | [a] => [a]
  | a :: _ :: rest => a :: everyOther rest

/-- Elementwise `M / n`. -/
def matScaleDiv (M : Mat) (n : ℚ) : Mat := M.map (fun r => r.map (fun x => x / n))

/-- Elementwise `A + B` (numpy `+=` on same-shape arrays). -/
def matAdd (A B : Mat) : Mat := A.zipWith (fun ra rb => ra.zipWith (· + ·) rb) B

/-- Sum of a list of same-shape matrices. -/
def matSum : List Mat → Mat
  | [] => []
  | m :: ms => ms.foldl matAdd m

/-- Lines 189-197: the running mean accumulation.  `n_traj = len(states)`;
each worker's trajectory is cut to every other row and divided by `n_traj`,
and the first contribution initialises the accumulator (`len(avg_traj) != 0`
guards the `+=`). -/
def accumAvgTraj (states : List (List ℚ × Mat)) : Mat :=
  let n : ℚ := states.length
  states.foldl
    (fun avg st =>
      if avg.length ≠ 0 then matAdd avg (matScaleDiv (everyOther st.2) n)
      else matScaleDiv (everyOther st.2) n)
    []

/-- The accumulation the spec's words describe instead: down-sampling each
worker trajectory to every other TIME POINT, i.e. every other column of the
species-by-time matrix.  Stated only to be compared with `accumAvgTraj`. -/
def accumAvgTrajSpecTime (states : List (List ℚ × Mat)) : Mat :=
  let n : ℚ := states.length
  states.foldl
    (fun avg st =>
      if avg.length ≠ 0 then matAdd avg (matScaleDiv (st.2.map everyOther) n)
      else matScaleDiv (st.2.map everyOther) n)
    []

/-! ## startPerturbations (lines 307-375) -/

/-- The decay parameter name `"m_g%i" % gene` (line 353). -/
def decayName (g : Nat) : String := "m_g" ++ toString g

/-- Lines 351-356 for one gene of a combination: walk `parNames` (every key
of the parameter table) and multiply the matching decay parameter by the
perturbation factor. -/
def perturbGene (factor : ℚ) (pars : List (String × ℚ)) (gene : Nat) :
    List (String × ℚ) :=
  pars.map (fun kv => if kv.1 = decayName gene then (kv.1, kv.2 * factor) else kv)

/-- First-occurrence lookup in an association list (the Python dict read
`mg.ModelSpec['pars'][k]`; keys of a dict are unique). -/
def dGet (m : List (String × ℚ)) (k : String) : Option ℚ :=
  (m.find? (fun kv => kv.1 = k)).map (fun kv => kv.2)

/-- Lines 369-370: `for i, k in enumerate(parNames): pars[k] = init_pars[i]` -
every parameter written back to its value in the pre-loop snapshot
`init_pars` (line 340). -/
def restorePars (init pars : List (String × ℚ)) : List (String × ℚ) :=
  pars.map (fun kv => (kv.1, (dGet init kv.1).getD kv.2))

/-- The parameter-table trajectory of the main loop of `startPerturbations`
(lines 350-370): for each combination, perturb each of its genes, (run the
experiment,) and restore every parameter from the snapshot. -/
def startPerturbationsPars (factor : ℚ) (combos : List (List Nat))
    (pars : List (String × ℚ)) : List (String × ℚ) :=
  combos.foldl (fun cur combo => restorePars pars (combo.foldl (perturbGene factor) cur)) pars

/-- Python `str` of an int list: `str([0]) = "[0]"`, `str([0, 1]) = "[0, 1]"`. -/
def pyStrIntList (l : List Nat) : String :=
  "[" ++ String.intercalate ", " (l.map toString) ++ "]"

/-- Python dict insert `d[k] = v`: overwrite in place when the key exists,
append otherwise. -/
def dinsert (d : List (String × α)) (k : String) (v : α) : List (String × α) :=
  if d.any (fun kv => kv.1 = k) then
    d.map (fun kv => if kv.1 = k then (kv.1, v) else kv)
  else d ++ [(k, v)]

/-- First-occurrence lookup in a string-keyed association list. -/
def dlookup (d : List (String × α)) (k : String) : Option α :=
  (d.find? (fun kv => kv.1 = k)).map (fun kv => kv.2)

/-- The `final_states` dict of `startPerturbations` (lines 343-367): seeded
with the baseline under `str([0])` (single mode; `str([0, 0])` in pair mode),
then one insert per perturbation combination under `str(perturbations)`.
`runResult` abstracts the `Experiment` re-run for a combination. -/
def perturbFinalStates (single : Bool) (gid : List Nat) (baseline : α)
    (runResult : List Nat → α) : List (String × α) :=
  let lab := if single then [0] else [0, 0]
  let combos := if single then gid.map (fun i => [i])
    else (gid.enum.map (fun ip => (gid.drop (ip.1 + 1)).map (fun p2 => [ip.2, p2]))).flatten
  combos.foldl (fun d combo => dinsert d (pyStrIntList combo) (runResult combo))
    [(pyStrIntList lab, baseline)]

/-! ## Helper lemmas -/

theorem rejectScan_eq_any (cols : List (List ℚ)) (xMax : ℚ) :
    rejectScan cols xMax = cols.any (fun c => listMax c < 0.1 * xMax) := by
  induction cols with
  | nil => rfl
  | cons c rest ih =>
    show (if listMax c < 0.1 * xMax then true else rejectScan rest xMax) = _
    by_cases h : listMax c < 0.1 * xMax <;> simp [h, ih]

theorem seedList_succ (seed n : Nat) :
    seedList seed (n + 1) = (seed + 1000) :: seedList (seed + 1000) n := by
  unfold seedList
  rw [List.range_succ_eq_map, List.map_cons, List.map_map]
  refine congrArg₂ List.cons ?_ ?_
  · show seed + 1000 * (0 + 1) = seed + 1000
    omega
  · apply List.map_congr_left
    intro a _
    show seed + 1000 * (a.succ + 1) = seed + 1000 + 1000 * (a + 1)
    omega

theorem simLoopTr_trace (integrate : Nat → Mat) (gid alls tps : List Nat)
    (lastTp : Nat) (xMax : ℚ) :
    ∀ fuel seed,
      (simLoopTr integrate gid alls tps lastTp xMax fuel seed).2 =
        seedList seed (simLoopTr integrate gid alls tps lastTp xMax fuel seed).2.length := by
  intro fuel
  induction fuel with
  | zero => intro seed; rfl
  | succ n ih =>
    intro seed
    simp only [simLoopTr]
    by_cases h : rejectTrajectory
        (geneTimeSubset (matT (integrate (seed + 1000))) gid tps) tps.length xMax = true
    · rw [if_pos h]
      show (seed + 1000) :: (simLoopTr integrate gid alls tps lastTp xMax n (seed + 1000)).2 =
        seedList seed
          ((seed + 1000) :: (simLoopTr integrate gid alls tps lastTp xMax n (seed + 1000)).2).length
      rw [List.length_cons, seedList_succ]
      exact congrArg _ (ih (seed + 1000))
    · rw [if_neg h]
      show [seed + 1000] = seedList seed 1
      have he : seedList seed 1 = [seed + 1000 * (0 + 1)] := rfl
      rw [he]

theorem seedList_nodup (seed n : Nat) : (seedList seed n).Nodup := by
  unfold seedList
  apply List.Nodup.map _ (List.nodup_range n)
  intro a b h
  have h2 : seed + 1000 * (a + 1) = seed + 1000 * (b + 1) := h
  omega

theorem map_getD_range {α : Type} (X : List α) (d : α) :
    (List.range X.length).map (fun i => X.getD i d) = X := by
  induction X with
  | nil => rfl
  | cons x xs ih =>
    rw [List.length_cons, List.range_succ_eq_map, List.map_cons, List.map_map]
    refine congrArg₂ List.cons rfl ?_
    have he : ((fun i => (x :: xs).getD i d) ∘ Nat.succ) = fun i => xs.getD i d := by
      funext i
      simp [List.getD_cons_succ]
    rw [he, ih]

theorem rowsOf_all (M : Mat) : rowsOf M (List.range M.length) = M := map_getD_range M []

theorem matT_length (M : Mat) : (matT M).length = (M.headD []).length := by
  simp [matT]

theorem matT_row_length (M : Mat) (r : List ℚ) (h : r ∈ matT M) : r.length = M.length := by
  unfold matT at h
  obtain ⟨j, _, rfl⟩ := List.mem_map.mp h
  simp

theorem tpsOf_getLastD (tlen : Nat) (h : 2 ≤ tlen) : (tpsOf tlen).getLastD 0 = tlen - 1 := by
  obtain ⟨m, rfl⟩ : ∃ m, tlen = m + 2 := ⟨tlen - 2, by omega⟩
  show (List.range' 1 (m + 2 - 1)).getLastD 0 = m + 2 - 1
  have he : m + 2 - 1 = m + 1 := by omega
  rw [he, List.range'_concat, List.getLastD_concat]
  omega

theorem simLoopTr_accept (integrate : Nat → Mat) (gid alls tps : List Nat)
    (lastTp : Nat) (xMax : ℚ) :
    ∀ fuel seed fin whole,
      (simLoopTr integrate gid alls tps lastTp xMax fuel seed).1 = some (fin, whole) →
      ∃ s, whole = rowsOf (matT (integrate s)) alls ∧
        fin = (rowsOf (matT (integrate s)) alls).map (fun r => r.getD lastTp 0) := by
  intro fuel
  induction fuel with
  | zero => intro seed fin whole h; exact absurd h (by simp [simLoopTr])
  | succ n ih =>
    intro seed fin whole h
    simp only [simLoopTr] at h
    by_cases hr : rejectTrajectory
        (geneTimeSubset (matT (integrate (seed + 1000))) gid tps) tps.length xMax = true
    · rw [if_pos hr] at h
      exact ih (seed + 1000) fin whole h
    · rw [if_neg hr] at h
      have h2 : some ((rowsOf (matT (integrate (seed + 1000))) alls).map
          (fun r => r.getD lastTp 0), rowsOf (matT (integrate (seed + 1000))) alls) =
          some (fin, whole) := h
      rw [Option.some.injEq, Prod.mk.injEq] at h2
      exact ⟨seed + 1000, h2.2.symm, h2.1.symm⟩

theorem upd_self (s : Nat → ℚ) (i : Nat) (v : ℚ) : upd s i v i = v := by
  simp [upd]

theorem upd_other (s : Nat → ℚ) (i j : Nat) (v : ℚ) (h : j ≠ i) : upd s i v j = s j := by
  simp [upd, h]

theorem foldl_upd_const {α : Type} (l : List α) (idx : α → Nat) (val : α → ℚ)
    (i : Nat) (w : ℚ) (hw : ∀ b ∈ l, idx b = i → val b = w) :
    ∀ s : Nat → ℚ, s i = w → (l.foldl (fun s b => upd s (idx b) (val b)) s) i = w := by
  induction l with
  | nil => intro s hs; exact hs
  | cons c rest ih =>
    intro s hs
    rw [List.foldl_cons]
    apply ih (fun b hb => hw b (List.mem_cons_of_mem _ hb))
    by_cases h : i = idx c
    · rw [h, upd_self]
      exact hw c (List.mem_cons_self _ _) h.symm
    · rw [upd_other _ _ _ _ h]
      exact hs

theorem foldl_upd_eq {α : Type} (l : List α) (idx : α → Nat) (val : α → ℚ) (a : α)
    (ha : a ∈ l) (hcomp : ∀ b ∈ l, idx b = idx a → val b = val a) :
    ∀ s : Nat → ℚ, (l.foldl (fun s b => upd s (idx b) (val b)) s) (idx a) = val a := by
  induction l with
  | nil => cases ha
  | cons c rest ih =>
    intro s
    rcases List.mem_cons.mp ha with heq | hmem
    · rw [List.foldl_cons]
      apply foldl_upd_const rest idx val (idx a) (val a)
        (fun b hb h => hcomp b (List.mem_cons_of_mem _ hb) h)
      rw [heq, upd_self]
    · rw [List.foldl_cons]
      exact ih hmem (fun b hb => hcomp b (List.mem_cons_of_mem _ hb)) _

theorem foldl_upd_untouched {α : Type} (l : List α) (idx : α → Nat) (val : α → ℚ)
    (i : Nat) (hne : ∀ b ∈ l, idx b ≠ i) :
    ∀ s : Nat → ℚ, (l.foldl (fun s b => upd s (idx b) (val b)) s) i = s i := by
  induction l with
  | nil => intro s; rfl
  | cons c rest ih =>
    intro s
    rw [List.foldl_cons, ih (fun b hb => hne b (List.mem_cons_of_mem _ hb))]
    exact upd_other _ _ _ _ (fun h => hne c (List.mem_cons_self _ _) h.symm)

theorem foldl_iter_const {β : Type} (l : List β) (f : (Nat → ℚ) → β → Nat → ℚ)
    (i : Nat) (w : ℚ) (hf : ∀ s b, f s b i = w) (hl : l ≠ []) :
    ∀ s0 : Nat → ℚ, (l.foldl f s0) i = w := by
  induction l with
  | nil => exact absurd rfl hl
  | cons c rest ih =>
    intro s0
    rw [List.foldl_cons]
    by_cases h : rest = []
    · subst h
      exact hf s0 c
    · exact ih h (f s0 c)

theorem strAppend_cancel (a s t : String) (h : a ++ s = a ++ t) : s = t := by
  have hd := congrArg String.data h
  rw [String.data_append, String.data_append] at hd
  exact String.ext (List.append_cancel_left hd)

theorem pSlot_ne_xSlot (p g : String) : ("p_" ++ p) ≠ ("x_" ++ g) := by
  intro h
  have hd := congrArg String.data h
  rw [String.data_append, String.data_append] at hd
  have h1 : ("p_" : String).data = ['p', '_'] := rfl
  have h2 : ("x_" : String).data = ['x', '_'] := rfl
  rw [h1, h2] at hd
  simp at hd

theorem revIdx_inj (l : List String) (a b : String) (ha : a ∈ l) (hb : b ∈ l)
    (h : revIdx l a = revIdx l b) : a = b := by
  induction l with
  | nil => cases ha
  | cons x xs ih =>
    unfold revIdx List.indexOf at h ih
    rw [List.findIdx_cons, List.findIdx_cons] at h
    by_cases hxa : (x == a) = true
    · by_cases hxb : (x == b) = true
      · exact (eq_of_beq hxa).symm.trans (eq_of_beq hxb)
      · rw [Bool.not_eq_true] at hxb
        rw [hxa, hxb] at h
        simp at h
    · rw [Bool.not_eq_true] at hxa
      by_cases hxb : (x == b) = true
      · rw [hxa, hxb] at h
        simp at h
      · rw [Bool.not_eq_true] at hxb
        rw [hxa, hxb] at h
        simp only [Bool.cond_false] at h
        have ha' : a ∈ xs := by
          rcases List.mem_cons.mp ha with heq | hm
          · subst heq
            simp at hxa
          · exact hm
        have hb' : b ∈ xs := by
          rcases List.mem_cons.mp hb with heq | hm
          · subst heq
            simp at hxb
          · exact hm
        exact ih ha' hb' (by omega)

theorem applyICSRow_value (varmapper proteinlist genelist : List String)
    (icsmap : List (String × ℚ)) (ss0 : Nat → ℚ)
    (hvm : varmapper ≠ [])
    (hp : ∀ p ∈ proteinlist, ("p_" ++ p) ∈ varmapper)
    (hg : ∀ g ∈ genelist, ("x_" ++ g) ∈ varmapper) :
    (∀ p ∈ proteinlist, applyICSRow varmapper proteinlist genelist icsmap ss0
        (revIdx varmapper ("p_" ++ p)) = pyGetD icsmap p 0.01) ∧
    (∀ g ∈ genelist, applyICSRow varmapper proteinlist genelist icsmap ss0
        (revIdx varmapper ("x_" ++ g)) = pyGetD icsmap g 0.01) := by
  have henum : varmapper.enum ≠ [] := fun h => hvm (List.enum_eq_nil.mp h)
  constructor
  · intro p hpm
    unfold applyICSRow
    apply foldl_iter_const _ _ _ _ _ henum
    intro s b
    show (genelist.foldl
        (fun s g => upd s (revIdx varmapper ("x_" ++ g)) (pyGetD icsmap g 0.01))
        (proteinlist.foldl
          (fun s p => upd s (revIdx varmapper ("p_" ++ p)) (pyGetD icsmap p 0.01)) s))
        (revIdx varmapper ("p_" ++ p)) = pyGetD icsmap p 0.01
    rw [foldl_upd_untouched genelist (fun b => revIdx varmapper ("x_" ++ b))
        (fun b => pyGetD icsmap b 0.01) _ ?hne _]
    case hne =>
      intro b hb hidx
      exact pSlot_ne_xSlot p b (revIdx_inj varmapper _ _ (hp p hpm) (hg b hb) hidx.symm)
    apply foldl_upd_eq proteinlist (fun b => revIdx varmapper ("p_" ++ b))
      (fun b => pyGetD icsmap b 0.01) p hpm
    intro b hb hidx
    have hb2 := revIdx_inj varmapper _ _ (hp b hb) (hp p hpm) hidx
    rw [strAppend_cancel _ _ _ hb2]
  · intro g hgm
    unfold applyICSRow
    apply foldl_iter_const _ _ _ _ _ henum
    intro s b
    show (genelist.foldl
        (fun s g => upd s (revIdx varmapper ("x_" ++ g)) (pyGetD icsmap g 0.01))
        (proteinlist.foldl
          (fun s p => upd s (revIdx varmapper ("p_" ++ p)) (pyGetD icsmap p 0.01)) s))
        (revIdx varmapper ("x_" ++ g)) = pyGetD icsmap g 0.01
    apply foldl_upd_eq genelist (fun b => revIdx varmapper ("x_" ++ b))
      (fun b => pyGetD icsmap b 0.01) g hgm
    intro b hb hidx
    have hb2 := revIdx_inj varmapper _ _ (hg b hb) (hg g hgm) hidx
    rw [strAppend_cancel _ _ _ hb2]

theorem perturbGene_keys (factor : ℚ) (pars : List (String × ℚ)) (gene : Nat) :
    (perturbGene factor pars gene).map Prod.fst = pars.map Prod.fst := by
  unfold perturbGene
  rw [List.map_map]
  apply List.map_congr_left
  intro kv _
  by_cases h : kv.1 = decayName gene <;> simp [h]

theorem comboFold_keys (factor : ℚ) (combo : List Nat) :
    ∀ cur : List (String × ℚ),
      (combo.foldl (perturbGene factor) cur).map Prod.fst = cur.map Prod.fst := by
  induction combo with
  | nil => intro cur; rfl
  | cons g gs ih =>
    intro cur
    rw [List.foldl_cons, ih, perturbGene_keys]

theorem dGet_cons_self (k : String) (v : ℚ) (t : List (String × ℚ)) :
    dGet ((k, v) :: t) k = some v := by
  simp [dGet, List.find?_cons]

theorem dGet_cons_ne (k k' : String) (v : ℚ) (t : List (String × ℚ)) (h : k' ≠ k) :
    dGet ((k, v) :: t) k' = dGet t k' := by
  simp [dGet, List.find?_cons, Ne.symm h]

theorem restorePars_restore :
    ∀ (pars cur : List (String × ℚ)),
      cur.map Prod.fst = pars.map Prod.fst → (pars.map Prod.fst).Nodup →
      restorePars pars cur = pars := by
  intro pars
  induction pars with
  | nil =>
    intro cur hk _
    cases cur with
    | nil => rfl
    | cons a t => simp at hk
  | cons kv pt ih =>
    intro cur hk hnd
    obtain ⟨k, v⟩ := kv
    cases cur with
    | nil => simp at hk
    | cons kv' ct =>
      obtain ⟨k', v'⟩ := kv'
      rw [List.map_cons, List.map_cons] at hk
      injection hk with h1 h2
      unfold restorePars
      rw [List.map_cons]
      have hnd1 : k ∉ pt.map Prod.fst := (List.nodup_cons.mp hnd).1
      have hnd2 : (pt.map Prod.fst).Nodup := (List.nodup_cons.mp hnd).2
      refine congrArg₂ List.cons ?_ ?_
      · show (k', (dGet ((k, v) :: pt) k').getD v') = (k, v)
        have h1' : k' = k := h1
        rw [h1', dGet_cons_self]
        rfl
      · have hmc : ct.map (fun kv => (kv.1, (dGet ((k, v) :: pt) kv.1).getD kv.2)) =
            ct.map (fun kv => (kv.1, (dGet pt kv.1).getD kv.2)) := by
          apply List.map_congr_left
          intro kv2 hkv2
          have hmem : kv2.1 ∈ pt.map Prod.fst := by
            rw [← h2]
            exact List.mem_map_of_mem _ hkv2
          have hne : kv2.1 ≠ k := fun he => hnd1 (he ▸ hmem)
          rw [dGet_cons_ne _ _ _ _ hne]
        rw [hmc]
        exact ih ct h2 hnd2

theorem rowDiv_add (n : ℚ) : ∀ ra rb : List ℚ,
    List.zipWith (· + ·) (ra.map (fun x => x / n)) (rb.map (fun x => x / n)) =
      (List.zipWith (· + ·) ra rb).map (fun x => x / n) := by
  intro ra
  induction ra with
  | nil => intro rb; rfl
  | cons a ta ih =>
    intro rb
    cases rb with
    | nil => rfl
    | cons b tb =>
      simp only [List.map_cons, List.zipWith_cons_cons]
      exact congrArg₂ List.cons (div_add_div_same a b n) (ih tb)

theorem matScaleDiv_add (n : ℚ) : ∀ A B : Mat,
    matAdd (matScaleDiv A n) (matScaleDiv B n) = matScaleDiv (matAdd A B) n := by
  intro A
  induction A with
  | nil => intro B; rfl
  | cons ra ta ih =>
    intro B
    cases B with
    | nil => rfl
    | cons rb tb =>
      simp only [matAdd, matScaleDiv, List.map_cons, List.zipWith_cons_cons]
      exact congrArg₂ List.cons (rowDiv_add n ra rb) (ih tb)

theorem everyOther_ne_nil {α : Type} (l : List α) (h : l ≠ []) : everyOther l ≠ [] := by
  match l with
  | [] => exact absurd rfl h
  | [a] => simp [everyOther]
  | a :: b :: rest => simp [everyOther]

theorem matScaleDiv_ne_nil (A : Mat) (n : ℚ) (h : A ≠ []) : matScaleDiv A n ≠ [] := by
  cases A with
  | nil => exact absurd rfl h
  | cons a t => simp [matScaleDiv]

theorem matAdd_ne_nil (A B : Mat) (ha : A ≠ []) (hb : B ≠ []) : matAdd A B ≠ [] := by
  cases A with
  | nil => exact absurd rfl ha
  | cons a ta =>
    cases B with
    | nil => exact absurd rfl hb
    | cons b tb => simp [matAdd]

theorem accumAvg_fold (n : ℚ) :
    ∀ (rest : List (List ℚ × Mat)) (A : Mat), A ≠ [] →
      (∀ st ∈ rest, st.2 ≠ []) →
      rest.foldl
        (fun avg st =>
          if avg.length ≠ 0 then matAdd avg (matScaleDiv (everyOther st.2) n)
          else matScaleDiv (everyOther st.2) n)
        (matScaleDiv A n) =
      matScaleDiv (rest.foldl (fun B st => matAdd B (everyOther st.2)) A) n := by
  intro rest
  induction rest with
  | nil => intro A _ _; rfl
  | cons s rs ih =>
    intro A hA hne
    rw [List.foldl_cons, List.foldl_cons]
    have h1 : (matScaleDiv A n).length ≠ 0 := by
      cases A with
      | nil => exact absurd rfl hA
      | cons a t => simp [matScaleDiv]
    rw [if_pos h1, matScaleDiv_add]
    exact ih (matAdd A (everyOther s.2))
      (matAdd_ne_nil _ _ hA (everyOther_ne_nil _ (hne s (List.mem_cons_self _ _))))
      (fun st hst => hne st (List.mem_cons_of_mem _ hst))

theorem any_fst_eq {α : Type} (d : List (String × α)) (x : String) :
    d.any (fun kv => kv.1 = x) = (d.map Prod.fst).any (fun s => s = x) := by
  induction d with
  | nil => rfl
  | cons kv t ih => rw [List.map_cons, List.any_cons, List.any_cons, ih]

theorem dinsert_keys {α : Type} (d : List (String × α)) (k : String) (v : α) :
    (dinsert d k v).map Prod.fst =
      if d.any (fun kv => kv.1 = k) then d.map Prod.fst else d.map Prod.fst ++ [k] := by
  unfold dinsert
  by_cases h : d.any (fun kv => kv.1 = k) = true
  · rw [if_pos h, if_pos h, List.map_map]
    apply List.map_congr_left
    intro kv _
    by_cases hk : kv.1 = k <;> simp [hk]
  · rw [if_neg h, if_neg h, List.map_append]
    rfl

theorem find_map_overwrite {α : Type} (v : α) (k : String) :
    ∀ d : List (String × α), d.any (fun kv => kv.1 = k) = true →
      (List.find? (fun kv => kv.1 = k)
        (d.map (fun kv => if kv.1 = k then (kv.1, v) else kv))).map Prod.snd = some v := by
  intro d
  induction d with
  | nil => intro h; simp at h
  | cons kv t ih =>
    intro h
    rw [List.map_cons]
    by_cases hk : kv.1 = k
    · rw [if_pos hk, List.find?_cons]
      simp [hk]
    · rw [if_neg hk, List.find?_cons]
      have ht : t.any (fun kv => kv.1 = k) = true := by
        rw [List.any_cons] at h
        simpa [hk] using h
      simpa [hk] using ih ht

theorem dlookup_dinsert_self {α : Type} (d : List (String × α)) (k : String) (v : α) :
    dlookup (dinsert d k v) k = some v := by
  unfold dinsert dlookup
  by_cases h : d.any (fun kv => kv.1 = k) = true
  · rw [if_pos h]
    exact find_map_overwrite v k d h
  · rw [if_neg h, List.find?_append]
    have hd : List.find? (fun kv => kv.1 = k) d = none := by
      rw [List.find?_eq_none]
      intro kv hkv hpk
      exact h (List.any_eq_true.mpr ⟨kv, hkv, hpk⟩)
    rw [hd]
    simp [List.find?_cons]

theorem find_map_ne {α : Type} (k x : String) (v : α) (hx : x ≠ k) :
    ∀ d : List (String × α),
      List.find? (fun kv => kv.1 = x) (d.map (fun kv => if kv.1 = k then (kv.1, v) else kv)) =
        List.find? (fun kv => kv.1 = x) d := by
  intro d
  induction d with
  | nil => rfl
  | cons kv t ih =>
    rw [List.map_cons, List.find?_cons, List.find?_cons]
    by_cases hpx : kv.1 = x
    · have hk : ¬(kv.1 = k) := by rw [hpx]; exact hx
      simp [hk, hpx, hx]
    · by_cases hk : kv.1 = k <;> simp [hk, hpx, Ne.symm hx, ih]

theorem dlookup_dinsert_ne {α : Type} (d : List (String × α)) (k x : String) (v : α)
    (hx : x ≠ k) : dlookup (dinsert d k v) x = dlookup d x := by
  unfold dinsert dlookup
  by_cases h : d.any (fun kv => kv.1 = k) = true
  · rw [if_pos h, find_map_ne k x v hx d]
  · rw [if_neg h, List.find?_append]
    have hs : List.find? (fun kv => kv.1 = x) [(k, v)] = none := by
      simp [List.find?_cons, Ne.symm hx]
    rw [hs]
    cases List.find? (fun kv => kv.1 = x) d <;> rfl

theorem dlookup_fold_not_mem {α β : Type} (key : β → String) (val : β → α) (x : String) :
    ∀ (items : List β) (d : List (String × α)), (∀ b ∈ items, key b ≠ x) →
      dlookup (items.foldl (fun d b => dinsert d (key b) (val b)) d) x = dlookup d x := by
  intro items
  induction items with
  | nil => intro d _; rfl
  | cons b bs ih =>
    intro d hne
    rw [List.foldl_cons, ih _ (fun c hc => hne c (List.mem_cons_of_mem _ hc))]
    exact dlookup_dinsert_ne _ _ _ _ (fun h => hne b (List.mem_cons_self _ _) h.symm)

theorem dlookup_fold_mem {α β : Type} (key : β → String) (val : β → α) (b : β) :
    ∀ (items : List β), b ∈ items → (items.map key).Nodup →
      ∀ d : List (String × α),
        dlookup (items.foldl (fun d c => dinsert d (key c) (val c)) d) (key b) =
          some (val b) := by
  intro items
  induction items with
  | nil => intro hb; cases hb
  | cons c cs ih =>
    intro hb hnd d
    have hcn : key c ∉ cs.map key := (List.nodup_cons.mp hnd).1
    have hnd' : (cs.map key).Nodup := (List.nodup_cons.mp hnd).2
    rw [List.foldl_cons]
    rcases List.mem_cons.mp hb with rfl | hbs
    · rw [dlookup_fold_not_mem key val (key b) cs _
        (fun e he hke => hcn (hke ▸ List.mem_map_of_mem key he))]
      exact dlookup_dinsert_self d (key b) (val b)
    · exact ih hbs hnd' _

theorem keys_fold_dinsert {α β : Type} (key : β → String) (val : β → α) :
    ∀ (items : List β) (d : List (String × α)), (items.map key).Nodup →
      ((items.foldl (fun d b => dinsert d (key b) (val b)) d).map Prod.fst) =
        d.map Prod.fst ++
          (items.map key).filter (fun k => !((d.map Prod.fst).any (fun s => s = k))) := by
  intro items
  induction items with
  | nil => intro d _; simp
  | cons b bs ih =>
    intro d hnd
    have hnd' : (bs.map key).Nodup := (List.nodup_cons.mp hnd).2
    have hbk : key b ∉ bs.map key := (List.nodup_cons.mp hnd).1
    rw [List.foldl_cons, List.map_cons, List.filter_cons, ih _ hnd', dinsert_keys]
    by_cases h : d.any (fun kv => kv.1 = key b) = true
    · rw [if_pos h]
      have hany : ((d.map Prod.fst).any (fun s => s = key b)) = true := by
        rw [← any_fst_eq]
        exact h
      rw [hany]
      simp
    · rw [if_neg h]
      have hany : ((d.map Prod.fst).any (fun s => s = key b)) = false := by
        rw [← any_fst_eq]
        exact Bool.not_eq_true _ |>.mp h
      rw [hany]
      have hfc : (bs.map key).filter
            (fun k => !(((d.map Prod.fst) ++ [key b]).any (fun s => s = k))) =
          (bs.map key).filter (fun k => !((d.map Prod.fst).any (fun s => s = k))) := by
        apply List.filter_congr
        intro x hx
        have hxb : x ≠ key b := fun he => hbk (he ▸ hx)
        rw [List.any_append]
        simp [Ne.symm hxb]
      rw [hfc]
      simp [List.append_assoc]

/-! ## Claim theorems -/

/-- C3: the rejection heuristic of lines 459-464 marks the trajectory for
retry if and only if at least one post-t0 time column of the gene-rows
subset has a maximum strictly below `0.1 * x_max`, and accepts exactly when
every such column's maximum is at least `0.1 * x_max`; the scan itself
(`rejectScan`) aborts at the first failing column, and the equivalence shows
that early abort computes exactly the existential condition.  `gid ≠ []`
keeps at least one gene row, so every column is nonempty and `listMax` is
its true maximum. -/
theorem c3_reject_iff (P : Mat) (gid tps : List Nat) (xMax : ℚ) (hg : gid ≠ []) :
    (∀ c ∈ (List.range tps.length).map
        (fun j => (geneTimeSubset P gid tps).map (fun r => r.getD j 0)), c ≠ []) ∧
    (rejectTrajectory (geneTimeSubset P gid tps) tps.length xMax = true ↔
      ∃ c ∈ (List.range tps.length).map
        (fun j => (geneTimeSubset P gid tps).map (fun r => r.getD j 0)),
        listMax c < 0.1 * xMax) ∧
    (rejectTrajectory (geneTimeSubset P gid tps) tps.length xMax = false ↔
      ∀ c ∈ (List.range tps.length).map
        (fun j => (geneTimeSubset P gid tps).map (fun r => r.getD j 0)),
        0.1 * xMax ≤ listMax c) := by
  refine ⟨?_, ?_, ?_⟩
  · intro c hc
    obtain ⟨j, _, rfl⟩ := List.mem_map.mp hc
    simpa [geneTimeSubset, colsOf, rowsOf] using hg
  · rw [rejectTrajectory, rejectScan_eq_any, List.any_eq_true]
    simp only [decide_eq_true_eq]
  · rw [rejectTrajectory, rejectScan_eq_any, Bool.eq_false_iff, Ne, List.any_eq_true]
    simp only [decide_eq_true_eq, not_exists, not_and, not_lt]

/-- C3 witness: a concrete one-gene trajectory whose single post-t0 column
has maximum 0, below 0.1 * 10, is marked for retry. -/
theorem c3_reject_iff_witness :
    rejectTrajectory (geneTimeSubset [[5, 0]] [0] [1]) 1 10 = true := by
  have h := (c3_reject_iff [[5, 0]] [0] [1] 10 (by decide)).2.1
  exact h.mpr ⟨[0], by with_unfolding_all decide, by with_unfolding_all decide⟩

/-- C4: the retry loop is unbounded: under a model for which every
integrated trajectory fails the rejection heuristic, the loop never accepts,
whatever the number of attempts allowed - the fuel-indexed embedding returns
`none` for every fuel, and no distinct error value exists (matching the
source, which raises nothing on permanent non-convergence: it simply never
returns). -/
theorem c4_never_terminates (integrate : Nat → Mat) (varmapper : List String)
    (tlen : Nat) (xMax : ℚ) (seed : Nat)
    (h : ∀ s, rejectTrajectory
      (geneTimeSubset (matT (integrate s)) (gidOf varmapper) (tpsOf tlen))
      (tpsOf tlen).length xMax = true) :
    ∀ fuel, simulateAndSample integrate varmapper tlen xMax fuel seed = none := by
  have key : ∀ fuel s, (simLoopTr integrate (gidOf varmapper) (allsOf varmapper)
      (tpsOf tlen) ((tpsOf tlen).getLastD 0) xMax fuel s).1 = none := by
    intro fuel
    induction fuel with
    | zero => intro s; rfl
    | succ n ih =>
      intro s
      simp only [simLoopTr]
      rw [if_pos (h (s + 1000))]
      exact ih (s + 1000)
  intro fuel
  exact key fuel seed

/-- C4 witness: a model whose trajectories are identically zero is rejected
on every attempt, so seven attempts (or any number) return nothing. -/
theorem c4_witness :
    simulateAndSample (fun _ => [[0, 0], [0, 0]]) ["x_a", "x_b"] 2 1 7 5 = none :=
  c4_never_terminates (fun _ => [[0, 0], [0, 0]]) ["x_a", "x_b"] 2 1 5
    (fun s => by
      show rejectTrajectory (geneTimeSubset (matT [[0, 0], [0, 0]])
        (gidOf ["x_a", "x_b"]) (tpsOf 2)) (tpsOf 2).length 1 = true
      with_unfolding_all rfl) 7

/-- C5: on every attempt of the retry loop, including the first, `seed +=
1000` runs before the integrator is invoked: the list of seeds handed to the
integrator is exactly `seed + 1000, seed + 2000, ...` - attempt k uses
`seed + 1000 * k` - and no two attempts use the same seed. -/
theorem c5_seed_increments (integrate : Nat → Mat) (varmapper : List String)
    (tlen : Nat) (xMax : ℚ) (fuel seed : Nat) :
    attemptSeeds integrate varmapper tlen xMax fuel seed =
      seedList seed (attemptSeeds integrate varmapper tlen xMax fuel seed).length ∧
    (attemptSeeds integrate varmapper tlen xMax fuel seed).Nodup := by
  have h := simLoopTr_trace integrate (gidOf varmapper) (allsOf varmapper) (tpsOf tlen)
    ((tpsOf tlen).getLastD 0) xMax fuel seed
  refine ⟨h, ?_⟩
  have h2 : attemptSeeds integrate varmapper tlen xMax fuel seed =
      seedList seed (attemptSeeds integrate varmapper tlen xMax fuel seed).length := h
  rw [h2]
  exact seedList_nodup _ _

/-- C1 (amended): every accepted worker result is, for the seed of the
accepted attempt, the pair (final-time-point vector over all species, full
all-species trajectory matrix over ALL time points INCLUDING t=0): the
trajectory has one row per species and `tlen` columns - one per element of
`tspan`, t=0 included, not `tlen - 1` as the claim as frozen states (see
`c1_counterexample`) - and the final-state vector is its column at the last
time index `tlen - 1`. -/
theorem c1_accepted_return (integrate : Nat → Mat) (varmapper : List String)
    (tlen slen : Nat) (xMax : ℚ) (fuel seed : Nat) (fin : List ℚ) (whole : Mat)
    (hrect : ∀ s, (integrate s).length = tlen ∧ ∀ r ∈ integrate s, r.length = slen)
    (hvm : varmapper.length = slen) (htlen : 2 ≤ tlen)
    (hres : simulateAndSample integrate varmapper tlen xMax fuel seed = some (fin, whole)) :
    ∃ s, whole = matT (integrate s) ∧ whole.length = slen ∧
      (∀ r ∈ whole, r.length = tlen) ∧
      fin = whole.map (fun r => r.getD (tlen - 1) 0) := by
  obtain ⟨s, hw, hf⟩ := simLoopTr_accept integrate (gidOf varmapper) (allsOf varmapper)
    (tpsOf tlen) ((tpsOf tlen).getLastD 0) xMax fuel seed fin whole hres
  have hhead : ((integrate s).headD []).length = slen := by
    cases hcase : integrate s with
    | nil =>
      exfalso
      have h1 := (hrect s).1
      rw [hcase] at h1
      simp at h1
      omega
    | cons r t =>
      exact (hrect s).2 r (by rw [hcase]; exact List.mem_cons_self _ _)
  have hM : (matT (integrate s)).length = slen := by
    rw [matT_length]
    exact hhead
  have halls : rowsOf (matT (integrate s)) (allsOf varmapper) = matT (integrate s) := by
    unfold allsOf
    rw [hvm, ← hM, rowsOf_all]
  rw [halls] at hw hf
  refine ⟨s, hw, ?_, ?_, ?_⟩
  · rw [hw]
    exact hM
  · intro r hr
    rw [hw] at hr
    rw [matT_row_length _ _ hr, (hrect s).1]
  · rw [hf, hw, tpsOf_getLastD tlen htlen]

/-- C1 witness: a concrete accepted two-species, three-time-point run; the
conclusion of `c1_accepted_return` holds at it. -/
theorem c1_accepted_return_witness :
    simulateAndSample (fun _ : Nat => ([[2, 3], [4, 5], [6, 7]] : Mat))
        ["x_a", "x_b"] 3 1 1 0 = some ([6, 7], [[2, 4, 6], [3, 5, 7]]) ∧
    ∃ s : Nat, ([[2, 4, 6], [3, 5, 7]] : Mat) =
        matT ((fun _ : Nat => ([[2, 3], [4, 5], [6, 7]] : Mat)) s) ∧
      ([[2, 4, 6], [3, 5, 7]] : Mat).length = 2 ∧
      (∀ r ∈ ([[2, 4, 6], [3, 5, 7]] : Mat), r.length = 3) ∧
      ([6, 7] : List ℚ) = ([[2, 4, 6], [3, 5, 7]] : Mat).map (fun r => r.getD (3 - 1) 0) :=
  ⟨by with_unfolding_all rfl,
    c1_accepted_return (fun _ : Nat => ([[2, 3], [4, 5], [6, 7]] : Mat)) ["x_a", "x_b"]
      3 2 1 1 0 [6, 7] [[2, 4, 6], [3, 5, 7]]
      (fun s => ⟨by
          show ([[2, 3], [4, 5], [6, 7]] : Mat).length = 3
          rfl, by
          show ∀ r ∈ ([[2, 3], [4, 5], [6, 7]] : Mat), r.length = 2
          decide⟩)
      (by decide) (by decide) (by with_unfolding_all rfl)⟩

/-- C1 counterexample: the claim as frozen says the second returned
component is the trajectory restricted to the post-t0 columns (columns 1
through len(tspan)-1); at this concrete accepted run the second component is
the full three-column matrix, which differs from that restriction. -/
theorem c1_counterexample :
    simulateAndSample (fun _ : Nat => ([[2, 3], [4, 5], [6, 7]] : Mat))
        ["x_a", "x_b"] 3 1 1 0 = some ([6, 7], [[2, 4, 6], [3, 5, 7]]) ∧
    ([[2, 4, 6], [3, 5, 7]] : Mat) ≠ colsOf [[2, 4, 6], [3, 5, 7]] (tpsOf 3) := by
  constructor
  · with_unfolding_all rfl
  · with_unfolding_all decide

/-- C2: when the model's protein list is non-empty, the result-frame branch
of lines 104-109 reads the name `proteinlist`, which is unbound in
`Experiment` (the model's list is `mg.proteinlist`), so a NameError is
raised before any simulation is dispatched - provided initial-condition
resolution (which runs first, lines 70-101) itself succeeded; and the
pre-dispatch pipeline completes only when the protein list is empty. -/
theorem c2_proteinlist_nameerror (varmapper proteinlist genelist : List String)
    (ics : ICS) :
    ((resolveSS varmapper proteinlist genelist ics).isOk = true → proteinlist ≠ [] →
      experimentPreDispatch varmapper proteinlist genelist ics =
        .error (.nameErr "proteinlist")) ∧
    (∀ x, experimentPreDispatch varmapper proteinlist genelist ics = .ok x →
      proteinlist = []) := by
  constructor
  · intro hok hne
    rcases hres : resolveSS varmapper proteinlist genelist ics with e | ss
    · rw [hres] at hok
      simp [Except.isOk, Except.toBool] at hok
    · simp only [experimentPreDispatch, hres, bind, Except.bind]
      unfold resultFrameIndexNames
      rw [if_neg (fun hl => hne (List.length_eq_zero.mp hl))]
  · intro x hok
    by_contra hne
    rcases hres : resolveSS varmapper proteinlist genelist ics with e | ss
    · simp only [experimentPreDispatch, hres, bind, Except.bind] at hok
      exact Except.noConfusion hok
    · simp only [experimentPreDispatch, hres, bind, Except.bind,
        resultFrameIndexNames] at hok
      rw [if_neg (fun hl => hne (List.length_eq_zero.mp hl))] at hok
      exact Except.noConfusion hok

/-- C2 witness: a one-protein model with a valid per-cell initial-condition
list resolves its initial conditions but then fails with the NameError. -/
theorem c2_proteinlist_nameerror_witness :
    (resolveSS ["x_a", "p_b"] ["b"] ["a"] (ICS.vecs [[1, 2]])).isOk = true ∧
    experimentPreDispatch ["x_a", "p_b"] ["b"] ["a"] (ICS.vecs [[1, 2]]) =
      .error (.nameErr "proteinlist") := by
  refine ⟨by with_unfolding_all rfl, ?_⟩
  exact (c2_proteinlist_nameerror ["x_a", "p_b"] ["b"] ["a"] (ICS.vecs [[1, 2]])).1
    (by with_unfolding_all rfl) (by decide)

/-- C9: the empty DataFrame sentinel (no initial-condition file configured)
sends `Experiment` into the multiple-initial-configuration branch
(`multi_ss = True`), where `ss = icsDF[0]` fails with a lookup error
(KeyError: the empty DataFrame has no column labelled 0); and
initial-condition resolution succeeds exactly when `icsDF` is a non-empty
DataFrame or a non-empty list of per-cell vectors. -/
theorem c9_empty_df_fails (varmapper proteinlist genelist : List String) :
    multiSSFlag (ICS.df []) = true ∧
    resolveSS varmapper proteinlist genelist (ICS.df []) = .error .keyErr ∧
    (∀ ics : ICS, (resolveSS varmapper proteinlist genelist ics).isOk = true ↔
      ((∃ row rest, ics = .df (row :: rest)) ∨ (∃ v rest, ics = .vecs (v :: rest)))) := by
  refine ⟨rfl, rfl, ?_⟩
  intro ics
  cases ics with
  | df rows =>
    cases rows with
    | nil => simp [resolveSS, Except.isOk, Except.toBool]
    | cons r rs => simp [resolveSS, Except.isOk, Except.toBool]
  | vecs l =>
    cases l with
    | nil => simp [resolveSS, Except.isOk, Except.toBool]
    | cons v vs => simp [resolveSS, Except.isOk, Except.toBool, List.get?]

/-- C8: with a non-empty override DataFrame the resolved steady state is the
template overwritten from row 0, and on it every protein slot and every gene
slot named in the override holds its override value while every unnamed
protein or gene slot holds 0.01 (`pyGetD icsmap n 0.01` is `icsmap[n]` when
`n` is named and `0.01` otherwise). -/
theorem c8_override_slots (varmapper proteinlist genelist : List String)
    (genes0 : List String) (values0 : List ℚ) (rest : List (List String × List ℚ))
    (hvm : varmapper ≠ [])
    (hp : ∀ p ∈ proteinlist, ("p_" ++ p) ∈ varmapper)
    (hg : ∀ g ∈ genelist, ("x_" ++ g) ∈ varmapper) :
    resolveSS varmapper proteinlist genelist (ICS.df ((genes0, values0) :: rest)) =
      .ok (.single (applyICSRow varmapper proteinlist genelist (genes0.zip values0)
        (ssTemplate varmapper proteinlist))) ∧
    (∀ p ∈ proteinlist,
      applyICSRow varmapper proteinlist genelist (genes0.zip values0)
        (ssTemplate varmapper proteinlist) (revIdx varmapper ("p_" ++ p)) =
        pyGetD (genes0.zip values0) p 0.01) ∧
    (∀ g ∈ genelist,
      applyICSRow varmapper proteinlist genelist (genes0.zip values0)
        (ssTemplate varmapper proteinlist) (revIdx varmapper ("x_" ++ g)) =
        pyGetD (genes0.zip values0) g 0.01) := by
  refine ⟨rfl, ?_⟩
  exact applyICSRow_value varmapper proteinlist genelist (genes0.zip values0)
    (ssTemplate varmapper proteinlist) hvm hp hg

/-- C8 witness: in a three-species model with override row
Genes = [a, c], Values = [5, 7]: the named protein slot p_c resolves to 7,
the named gene slot x_a to 5, and the unnamed gene slot x_b to 0.01. -/
theorem c8_override_slots_witness :
    applyICSRow ["x_a", "x_b", "p_c"] ["c"] ["a", "b"] (["a", "c"].zip [5, 7])
      (ssTemplate ["x_a", "x_b", "p_c"] ["c"]) (revIdx ["x_a", "x_b", "p_c"] "p_c") = 7 ∧
    applyICSRow ["x_a", "x_b", "p_c"] ["c"] ["a", "b"] (["a", "c"].zip [5, 7])
      (ssTemplate ["x_a", "x_b", "p_c"] ["c"]) (revIdx ["x_a", "x_b", "p_c"] "x_a") = 5 ∧
    applyICSRow ["x_a", "x_b", "p_c"] ["c"] ["a", "b"] (["a", "c"].zip [5, 7])
      (ssTemplate ["x_a", "x_b", "p_c"] ["c"]) (revIdx ["x_a", "x_b", "p_c"] "x_b") =
      0.01 := by
  have h := c8_override_slots ["x_a", "x_b", "p_c"] ["c"] ["a", "b"] ["a", "c"] [5, 7] []
    (by decide) (by decide) (by decide)
  have ep : ("p_" ++ "c" : String) = "p_c" := by decide
  have ea : ("x_" ++ "a" : String) = "x_a" := by decide
  have eb : ("x_" ++ "b" : String) = "x_b" := by decide
  refine ⟨?_, ?_, ?_⟩
  · have h1 := h.2.1 "c" (by decide)
    rw [ep] at h1
    exact h1.trans (by with_unfolding_all rfl)
  · have h1 := h.2.2 "a" (by decide)
    rw [ea] at h1
    exact h1.trans (by with_unfolding_all rfl)
  · have h1 := h.2.2 "b" (by decide)
    rw [eb] at h1
    exact h1.trans (by with_unfolding_all rfl)

theorem accumAvgTraj_eq_sum (states : List (List ℚ × Mat)) (hne : states ≠ [])
    (hs : ∀ st ∈ states, st.2 ≠ []) :
    accumAvgTraj states =
      matScaleDiv (matSum (states.map (fun st => everyOther st.2))) states.length := by
  cases states with
  | nil => exact absurd rfl hne
  | cons s rest =>
    unfold accumAvgTraj
    rw [List.foldl_cons, if_neg (fun h : ([] : Mat).length ≠ 0 => h rfl)]
    rw [accumAvg_fold _ rest (everyOther s.2)
      (everyOther_ne_nil _ (hs s (List.mem_cons_self _ _)))
      (fun st hst => hs st (List.mem_cons_of_mem _ hst))]
    rw [List.map_cons]
    simp only [matSum]
    congr 1
    rw [List.foldl_map]

/-- C6: for every list of perturbation combinations, multiplying each
combination's decay parameters `m_g<gene>` by the perturbation factor and
then writing every parameter back from the pre-loop snapshot (lines 340 and
369-370) leaves the parameter table exactly as it began; since the fold
re-establishes the original table after each combination, the table at the
start of every combination - and after all of them - is the caller's
original one.  Python dict keys are unique, hence the Nodup hypothesis. -/
theorem c6_pars_restored (factor : ℚ) (combos : List (List Nat))
    (pars : List (String × ℚ)) (hnd : (pars.map Prod.fst).Nodup) :
    startPerturbationsPars factor combos pars = pars := by
  unfold startPerturbationsPars
  induction combos with
  | nil => rfl
  | cons c cs ih =>
    rw [List.foldl_cons,
      restorePars_restore pars _ (comboFold_keys factor c pars) hnd]
    exact ih

/-- C6 witness: perturbing genes 0 and then 1 in a three-parameter table
leaves it byte-identical. -/
theorem c6_pars_restored_witness :
    startPerturbationsPars 2 [[0], [1]] [("m_g0", 3), ("m_g1", 5), ("a", 2)] =
      [("m_g0", 3), ("m_g1", 5), ("a", 2)] :=
  c6_pars_restored 2 [[0], [1]] [("m_g0", 3), ("m_g1", 5), ("a", 2)] (by decide)

/-- C7 (amended): the mean trajectory accumulated by `Experiment` (lines
189-197) equals the sum over workers of each worker's trajectory restricted
to every other ROW - rows 0, 2, 4, ... of the species-by-time matrix, i.e.
every other SPECIES, not every other time point (see `c7_counterexample`) -
divided by the length of the collected states list, which is fixed at the
configured cell count because exactly one state is collected per cell id. -/
theorem c7_mean_trajectory (worker : Nat → List ℚ × Mat) (numCells : Nat)
    (h0 : 0 < numCells) (hne : ∀ i, i < numCells → (worker i).2 ≠ []) :
    (experimentStates worker numCells).length = numCells ∧
    accumAvgTraj (experimentStates worker numCells) =
      matScaleDiv
        (matSum ((experimentStates worker numCells).map (fun st => everyOther st.2)))
        ((experimentStates worker numCells).length) := by
  have hlen : (experimentStates worker numCells).length = numCells := by
    simp [experimentStates]
  refine ⟨hlen, ?_⟩
  apply accumAvgTraj_eq_sum
  · intro he
    rw [he] at hlen
    simp at hlen
    omega
  · intro st hst
    unfold experimentStates at hst
    obtain ⟨i, hi, rfl⟩ := List.mem_map.mp hst
    exact hne i (List.mem_range.mp hi)

/-- C7 witness: a concrete two-cell experiment whose workers all return a
three-species two-time-point trajectory satisfies the amended equality. -/
theorem c7_mean_trajectory_witness :
    accumAvgTraj (experimentStates (fun _ : Nat =>
        (([0] : List ℚ), ([[1, 2], [3, 4], [5, 6]] : Mat))) 2) =
      matScaleDiv
        (matSum ((experimentStates (fun _ : Nat =>
          (([0] : List ℚ), ([[1, 2], [3, 4], [5, 6]] : Mat))) 2).map
            (fun st => everyOther st.2)))
        ((experimentStates (fun _ : Nat =>
          (([0] : List ℚ), ([[1, 2], [3, 4], [5, 6]] : Mat))) 2).length) :=
  (c7_mean_trajectory (fun _ : Nat => (([0] : List ℚ), ([[1, 2], [3, 4], [5, 6]] : Mat)))
    2 (by decide)
    (fun i _ => by
      show ([[1, 2], [3, 4], [5, 6]] : Mat) ≠ []
      simp)).2

/-- C7 counterexample: the claim says each worker trajectory is down-sampled
to every other TIME POINT (calling rows 0, 2, 4, ... time points); at a
concrete one-cell experiment whose worker result is the accepted
species-by-time matrix [[1,4],[2,5],[3,6]] returned by `simulateAndSample`,
the code's accumulation (rows = every other species) differs from the
every-other-time-point accumulation the spec's words describe. -/
theorem c7_counterexample :
    simulateAndSample (fun _ : Nat => ([[1, 2, 3], [4, 5, 6]] : Mat))
        ["x_a", "x_b", "x_c"] 2 1 1 0 = some ([4, 5, 6], [[1, 4], [2, 5], [3, 6]]) ∧
    accumAvgTraj [([4, 5, 6], [[1, 4], [2, 5], [3, 6]])] ≠
      accumAvgTrajSpecTime [([4, 5, 6], [[1, 4], [2, 5], [3, 6]])] := by
  constructor
  · with_unfolding_all rfl
  · with_unfolding_all decide

/-- C10: in single mode the baseline final states are stored under
`str([0]) = "[0]"`, and when the gene-id list contains 0 the result for the
perturbation of gene 0 is inserted under that same key, overwriting the
baseline: the returned mapping's keys are exactly one per perturbation (the
key "[0]" first, at the baseline's position), its size is the number of
perturbations with no separate baseline entry, and the entry at "[0]" holds
the gene-0 re-run result, not the baseline. -/
theorem c10_baseline_overwritten {α : Type} (gid : List Nat) (baseline : α)
    (runResult : List Nat → α) (h0 : 0 ∈ gid)
    (hnd : (gid.map (fun g => pyStrIntList [g])).Nodup) :
    (perturbFinalStates true gid baseline runResult).map Prod.fst =
      pyStrIntList [0] ::
        ((gid.map (fun g => pyStrIntList [g])).erase (pyStrIntList [0])) ∧
    (perturbFinalStates true gid baseline runResult).length = gid.length ∧
    dlookup (perturbFinalStates true gid baseline runResult) (pyStrIntList [0]) =
      some (runResult [0]) := by
  have hdef : perturbFinalStates true gid baseline runResult =
      (gid.map (fun i => [i])).foldl
        (fun d combo => dinsert d (pyStrIntList combo) (runResult combo))
        [(pyStrIntList [0], baseline)] := rfl
  have hmk : (gid.map (fun i => ([i] : List Nat))).map pyStrIntList =
      gid.map (fun g => pyStrIntList [g]) := by
    rw [List.map_map]
    rfl
  have hnd' : ((gid.map (fun i => ([i] : List Nat))).map pyStrIntList).Nodup := by
    rw [hmk]
    exact hnd
  have hmem : ([0] : List Nat) ∈ gid.map (fun i => ([i] : List Nat)) :=
    List.mem_map_of_mem _ h0
  have hmemk : pyStrIntList [0] ∈ gid.map (fun g => pyStrIntList [g]) := by
    rw [← hmk]
    exact List.mem_map_of_mem _ hmem
  have hkeys := keys_fold_dinsert pyStrIntList runResult (gid.map (fun i => [i]))
    [(pyStrIntList [0], baseline)] hnd'
  have hd0 : ([(pyStrIntList [0], baseline)].map Prod.fst) = [pyStrIntList [0]] := rfl
  rw [hd0, hmk] at hkeys
  have hfe : (gid.map (fun g => pyStrIntList [g])).filter
        (fun k => !([pyStrIntList [0]].any (fun s => s = k))) =
      (gid.map (fun g => pyStrIntList [g])).erase (pyStrIntList [0]) := by
    rw [List.Nodup.erase_eq_filter hnd]
    apply List.filter_congr
    intro x _
    by_cases hx : x = pyStrIntList [0]
    · subst hx
      simp
    · simp [hx, Ne.symm hx]
  rw [hfe] at hkeys
  have hkeys2 : (perturbFinalStates true gid baseline runResult).map Prod.fst =
      pyStrIntList [0] ::
        ((gid.map (fun g => pyStrIntList [g])).erase (pyStrIntList [0])) := by
    rw [hdef, hkeys]
    rfl
  refine ⟨hkeys2, ?_, ?_⟩
  · have hlen := congrArg List.length hkeys2
    rw [List.length_map, List.length_cons, List.length_erase_of_mem hmemk,
      List.length_map] at hlen
    have hpos : 0 < gid.length :=
      List.length_pos.mpr (fun he => by rw [he] at h0; cases h0)
    omega
  · rw [hdef]
    exact dlookup_fold_mem pyStrIntList runResult [0] (gid.map (fun i => [i]))
      hmem hnd' [(pyStrIntList [0], baseline)]

/-- C10 witness: with gene ids [0, 1], baseline 3 and every re-run result 7,
the returned mapping has two entries and its "[0]" entry holds 7, not the
baseline 3. -/
theorem c10_baseline_overwritten_witness :
    (perturbFinalStates true [0, 1] (3 : ℚ) (fun _ => 7)).length = 2 ∧
    dlookup (perturbFinalStates true [0, 1] (3 : ℚ) (fun _ => 7)) (pyStrIntList [0]) =
      some 7 := by
  have h := c10_baseline_overwritten [0, 1] (3 : ℚ) (fun _ => (7 : ℚ))
    (by decide) (by with_unfolding_all decide)
  exact ⟨h.2.1, h.2.2⟩
